import Mathlib

/-!
Verification of the fitbit-to-kml core against its specification.

Shallow embedding of the three core modules:
* `tokens.py`  — OAuth token file handling (`TokenData`, `from_dict`,
  `as_serializable_dict`, `will_expire_within`);
* `client.py`  — the authorized HTTP client (`FitbitAPIClient.request`,
  `refresh_access_token`, `_rate_limit_delay`);
* `tcx.py`     — the resumable download plan (`collect_plan`,
  `download_plan`, `save_plan`/`load_plan`, path helpers).

Modelling conventions:
* Python floats and datetimes are modelled as rationals (`ℚ`); datetimes
  are UTC epoch offsets in seconds.
* Machine parsing that the source delegates to the Python runtime
  (`float(s)`, `datetime.fromisoformat(s)`) is modelled by annotating each
  string value with the parse result the runtime would produce.
* The network transport is a script: a list of responses consumed one per
  send.  File-system effects (persisting the plan) are returned as data.
-/

/-! ## Character-list string helpers

Lean core's position-based `String` functions (`trim`, `splitOn`, …) are
defined by well-founded recursion on byte positions and do not reduce in
the kernel, so the embedding uses these structurally recursive
equivalents over `String.data`. -/

/-- Split at every character satisfying `p` (separators dropped, empty
segments kept). -/
def splitOnPred (p : Char → Bool) : List Char → List (List Char)
  | [] => [[]]
  | x :: xs =>
    match splitOnPred p xs with
    | [] => [[]]
    | seg :: segs => if p x then [] :: seg :: segs else (x :: seg) :: segs

/-- Python `s.strip()` / Lean `String.trim`. -/
def strTrim (s : String) : String :=
  String.mk (((s.toList.dropWhile Char.isWhitespace).reverse.dropWhile
    Char.isWhitespace).reverse)

/-- Python `s.lower()` over the ASCII range the source exercises. -/
def strToLower (s : String) : String := String.mk (s.toList.map Char.toLower)

/-- Python `s.endswith(t)`. -/
def strEndsWith (s t : String) : Bool :=
  let cs := s.toList
  let ts := t.toList
  decide (ts.length ≤ cs.length) && (cs.drop (cs.length - ts.length) == ts)

/-- Python `s[:-n]` for `n ≤ len(s)`: drop the last `n` characters. -/
def strDropRight (s : String) (n : ℕ) : String :=
  String.mk (s.toList.take (s.toList.length - n))

/-- Split at the first occurrence of `pat` (nonempty): the part before it
and the part after it. -/
def splitFirstSub (pat : List Char) : List Char → Option (List Char × List Char)
  | [] => none
  | x :: xs =>
    if pat.isPrefixOf (x :: xs) then some ([], (x :: xs).drop pat.length)
    else
      match splitFirstSub pat xs with
      | some (pre, post) => some (x :: pre, post)
      | none => none

/-! ## tokens.py -/

/-- A JSON value as stored in a token file.  `tstr s ts` is a string
together with the UTC epoch value `datetime.fromisoformat(s)` would
produce (`none` when parsing would raise).  `tother` stands for an opaque
non-iterable value. -/
inductive TVal where
  | null
  | tbool (b : Bool)
  | tnum (q : ℚ)
  | tstr (s : String) (ts : Option ℚ)
  | tarr (elems : List TVal)
  | tother
  deriving Repr

/-- Python truthiness of a JSON value. -/
def TVal.truthy : TVal → Bool
  | .null => false
  | .tbool b => b
  | .tnum q => q != 0
  | .tstr s _ => s != ""
  | .tarr l => !l.isEmpty
  | .tother => true

/-- Python `str(value)` for scope items.  The claims never depend on the
rendering of non-string values; strings render as themselves, exactly as
in CPython. -/
def TVal.pyStr : TVal → String
  | .tstr s _ => s
  | .tbool b => cond b "True" "False"
  | .tnum q => toString q
  | .null => "None"
  | .tarr _ => "[...]"
  | .tother => "<object>"

/-- Python `s.split()`: split on whitespace runs, dropping empty pieces. -/
def pyWhitespaceSplit (s : String) : List String :=
  ((splitOnPred Char.isWhitespace s.toList).map String.mk).filter (fun t => t != "")

/-- In-memory token record (`tokens.TokenData`).  `expires_at` is the
parsed UTC instant; `raw` keeps the whole original payload, exactly as the
dataclass stores the dict it was built from. -/
structure TokenData where
  access_token : TVal
  refresh_token : Option TVal
  expires_at : Option ℚ
  scope : Option (List String)
  token_type : Option TVal
  raw : List (String × TVal)
  deriving Repr

/-- Embedding of `payload.get("scope")` normalization inside `TokenData.from_dict`:
a string is whitespace-split (each piece stripped and non-empty pieces
kept), an array has `str()` applied element-wise, anything else gives
`None`. -/
def parseScopeField (v : Option TVal) : Option (List String) :=
  match v with
  | some (.tstr s _) => some (((pyWhitespaceSplit s).map strTrim).filter (fun t => t != ""))
  | some (.tarr elems) => some (elems.map TVal.pyStr)
  | _ => none

/-- Embedding of `_parse_timestamp(payload.get("expires_at")) if truthy else None`:
outer `none` means the load raises (non-string truthy value, or a string
`fromisoformat` rejects). -/
def parseExpiresField (v : Option TVal) : Option (Option ℚ) :=
  match v with
  | none => some none
  | some v =>
    if v.truthy then
      match v with
      | .tstr _ (some q) => some (some q)
      | _ => none
    else some none

/-- Embedding of `TokenData.from_dict(payload)`: `none` when the constructor raises
(missing `access_token`, or an unparseable truthy `expires_at`). -/
def TokenData.from_dict (payload : List (String × TVal)) : Option TokenData :=
  match payload.lookup "access_token" with
  | none => none
  | some atok =>
    match parseExpiresField (payload.lookup "expires_at") with
    | none => none
    | some expires_at =>
      some { access_token := atok
             refresh_token := payload.lookup "refresh_token"
             expires_at := expires_at
             scope := parseScopeField (payload.lookup "scope")
             token_type := payload.lookup "token_type"
             raw := payload }

/-- The explicitly-managed part of `as_serializable_dict`: `access_token`
and `token_type` always, then `refresh_token`, `expires_at` and `scope`
each only when truthy.  `iso` is `datetime.isoformat` after `astimezone(UTC)`. -/
def tokenDataHead (iso : ℚ → String) (t : TokenData) : List (String × TVal) :=
  [("access_token", t.access_token), ("token_type", t.token_type.getD .null)]
  ++ (match t.refresh_token with
      | some v => if v.truthy then [("refresh_token", v)] else []
      | none => [])
  ++ (match t.expires_at with
      | some q => [("expires_at", .tstr (iso q) (some q))]
      | none => [])
  ++ (match t.scope with
      | some l => if l.isEmpty then [] else [("scope", .tstr (String.intercalate " " l) none)]
      | none => [])

/-- Embedding of `TokenData.as_serializable_dict`: the managed head, then every `raw`
entry whose key is not already present, in original order. -/
def TokenData.as_serializable_dict (iso : ℚ → String) (t : TokenData) : List (String × TVal) :=
  tokenDataHead iso t
  ++ t.raw.filter (fun kv => ((tokenDataHead iso t).lookup kv.1).isNone)

/-- Embedding of `TokenData.will_expire_within(delta)` at instant `now`. -/
def TokenData.will_expire_within (t : TokenData) (now delta : ℚ) : Bool :=
  match t.expires_at with
  | none => false
  | some e => decide (e ≤ now + delta)

/-- The default lookahead `timedelta(minutes=1)`, in seconds. -/
def defaultExpiryLookahead : ℚ := 60

/-! ## Generic association-list lemmas -/

theorem lookup_append_or {α β : Type} [BEq α] (l₁ l₂ : List (α × β)) (k : α) :
    (l₁ ++ l₂).lookup k = ((l₁.lookup k).or (l₂.lookup k)) := by
  induction l₁ with
  | nil => simp [List.lookup]
  | cons kv rest ih =>
    obtain ⟨a, b⟩ := kv
    by_cases h : (k == a) = true
    · simp [List.lookup, h]
    · simp only [Bool.not_eq_true] at h
      simp [List.lookup, h, ih]

theorem lookup_filter_keyfun {β : Type} (f : String → Bool) (l : List (String × β)) (k : String) :
    (l.filter (fun kv => f kv.1)).lookup k = if f k = true then l.lookup k else none := by
  induction l with
  | nil => simp [List.lookup]
  | cons kv rest ih =>
    obtain ⟨a, b⟩ := kv
    by_cases hf : f a = true
    · by_cases hk : (k == a) = true
      · have : k = a := by simpa using hk
        subst this
        simp [List.filter, List.lookup, hf, hk]
      · simp only [Bool.not_eq_true] at hk
        simp [List.filter, List.lookup, hf, hk, ih]
    · by_cases hk : (k == a) = true
      · have : k = a := by simpa using hk
        subst this
        simp only [Bool.not_eq_true] at hf
        simp [List.filter, List.lookup, hf, ih]
      · simp only [Bool.not_eq_true] at hk
        simp only [Bool.not_eq_true] at hf
        simp [List.filter, List.lookup, hf, hk, ih]

theorem lookup_singleton {β : Type} (a : String) (b : β) (k : String) :
    ([(a, b)] : List (String × β)).lookup k = if (k == a) = true then some b else none := by
  by_cases h : (k == a) = true
  · simp [List.lookup, h]
  · simp only [Bool.not_eq_true] at h
    simp [List.lookup, h]

/-! ## client.py -/

/-- A numeric HTTP header as `client._rate_limit_delay` reads it:
absent (or empty, hence falsy), present but rejected by `float()`, or
parsed to `q` seconds. -/
inductive PyHdr where
  | absent
  | unparseable
  | secs (q : ℚ)
  deriving Repr, DecidableEq

/-- Whether the header is present and `float()`-parseable. -/
def PyHdr.parses : PyHdr → Bool
  | .secs _ => true
  | _ => false

/-- An HTTP response as the client inspects it: the status code and the
two headers `_rate_limit_delay` reads. -/
structure HttpResponse where
  status : ℕ
  retryAfter : PyHdr
  rateLimitReset : PyHdr
  deriving Repr, DecidableEq

/-- The one exception class `client.py` defines (`FitbitAPIError`). -/
inductive PyExceptionClass where
  | fitbitAPIError
  deriving Repr, DecidableEq

/-- The exceptions the client can raise, one constructor per `raise` site
in `client.py`. -/
inductive ApiError where
  | callFailed (status : ℕ)
  | refreshTokenMissing
  | missingClientCredentials
  | refreshFailed (status : ℕ)
  deriving Repr, DecidableEq

/-- The Python class of each raised exception: every `raise` in
`client.py` constructs `FitbitAPIError`. -/
def ApiError.pyClass : ApiError → PyExceptionClass := fun _ => .fitbitAPIError

/-- Client construction state relevant to `request`:
the retry bound, whether the stored token has a `refresh_token`, whether
client id/secret are both set, and the status the token endpoint returns
to a refresh POST. -/
structure ClientConfig where
  max_rate_limit_retries : ℕ
  hasRefreshToken : Bool
  hasClientCredentials : Bool
  refreshStatus : ℕ
  deriving Repr, DecidableEq

/-- Embedding of `max_rate_limit_retries` constructor default. -/
def default_max_rate_limit_retries : ℕ := 5

/-- Embedding of `FitbitAPIClient._rate_limit_delay(response, attempt)`. -/
def rate_limit_delay (r : HttpResponse) (attempt : ℕ) : ℚ :=
  match r.retryAfter with
  | .secs q => max 1 q
  | _ =>
    match r.rateLimitReset with
    | .secs q => max 1 q
    | _ => min 60 (max 1 ((2 : ℚ) ^ attempt))

/-- Embedding of `FitbitAPIClient.refresh_access_token(force)`.  `expiring` abstracts
the freshness of the stored token; a successful refresh yields a fresh
token (`false`), a silent early return keeps it unchanged. -/
def refresh_access_token (cfg : ClientConfig) (force : Bool) (expiring : Bool) :
    Except ApiError Bool :=
  if cfg.hasRefreshToken = false then
    if force then .error .refreshTokenMissing else .ok expiring
  else if cfg.hasClientCredentials = false then .error .missingClientCredentials
  else if 400 ≤ cfg.refreshStatus then .error (.refreshFailed cfg.refreshStatus)
  else .ok false

/-- Embedding of `FitbitAPIClient._ensure_fresh_token()`. -/
def ensure_fresh_token (cfg : ClientConfig) (expiring : Bool) : Except ApiError Bool :=
  if expiring then refresh_access_token cfg false expiring else .ok expiring

/-- Observable effects of one `request` call: sends to the transport,
sleeps (each the delay passed to `self._sleep`), and forced token
refreshes. -/
structure RequestTrace where
  sends : ℕ
  sleeps : List ℚ
  forcedRefreshes : ℕ
  deriving Repr, DecidableEq

/-- The `while True` loop of `FitbitAPIClient.request`.  The transport is
the response script (one entry per send); `none` means the script ran
out before the loop finished. -/
def request_go (cfg : ClientConfig) (retryAuth : Bool) (attempts : ℕ) (expiring : Bool)
    (tr : RequestTrace) :
    List HttpResponse → Option (Except ApiError HttpResponse × RequestTrace)
  | [] =>
    match ensure_fresh_token cfg expiring with
    | .error e => some (.error e, tr)
    | .ok _ => none
  | r :: rest =>
    match ensure_fresh_token cfg expiring with
    | .error e => some (.error e, tr)
    | .ok expiring2 =>
      let tr2 : RequestTrace := ⟨tr.sends + 1, tr.sleeps, tr.forcedRefreshes⟩
      if r.status = 401 ∧ retryAuth = true then
        match refresh_access_token cfg true expiring2 with
        | .error e => some (.error e, ⟨tr2.sends, tr2.sleeps, tr2.forcedRefreshes + 1⟩)
        | .ok expiring3 =>
          request_go cfg false attempts expiring3
            ⟨tr2.sends, tr2.sleeps, tr2.forcedRefreshes + 1⟩ rest
      else if r.status = 429 ∧ attempts < cfg.max_rate_limit_retries then
        request_go cfg retryAuth (attempts + 1) expiring2
          ⟨tr2.sends, tr2.sleeps ++ [rate_limit_delay r attempts], tr2.forcedRefreshes⟩ rest
      else if 400 ≤ r.status then some (.error (.callFailed r.status), tr2)
      else some (.ok r, tr2)

/-- Embedding of `FitbitAPIClient.request(...)`: one logical request against a
response script. -/
def request (cfg : ClientConfig) (retry_on_unauthorized : Bool) (expiring : Bool)
    (script : List HttpResponse) : Option (Except ApiError HttpResponse × RequestTrace) :=
  request_go cfg retry_on_unauthorized 0 expiring ⟨0, [], 0⟩ script

/-- The delays `request` computes for a run of rate-limited responses,
starting from attempt counter `a`. -/
def delays_from (a : ℕ) : List HttpResponse → List ℚ
  | [] => []
  | r :: rs => rate_limit_delay r a :: delays_from (a + 1) rs

/-! ## tcx.py -/

/-- Embedding of `tcx.TCXDownloadItem`. -/
structure TCXDownloadItem where
  url : String
  path : String
  downloaded : Bool
  deriving Repr, DecidableEq

/-- One `{url, path, downloaded}` object of the persisted plan document. -/
structure TCXPlanEntry where
  url : String
  path : String
  downloaded : Bool
  deriving Repr, DecidableEq

/-- Embedding of `TCXDownloadItem.to_dict`. -/
def TCXDownloadItem.to_dict (it : TCXDownloadItem) : TCXPlanEntry :=
  ⟨it.url, it.path, it.downloaded⟩

/-- Embedding of `TCXDownloadItem.from_dict` (on a well-formed entry `str` and `bool`
are the identity). -/
def TCXDownloadItem.from_dict (e : TCXPlanEntry) : TCXDownloadItem :=
  ⟨e.url, e.path, e.downloaded⟩

/-- Embedding of `tcx.save_plan`: the document written to the plan path. -/
def save_plan (plan : List TCXDownloadItem) : List TCXPlanEntry :=
  plan.map TCXDownloadItem.to_dict

/-- Embedding of `tcx.load_plan`: the items read back from a plan document. -/
def load_plan (doc : List TCXPlanEntry) : List TCXDownloadItem :=
  doc.map TCXDownloadItem.from_dict

/-- Embedding of `tcx.TCXDownloadSummary`. -/
structure TCXDownloadSummary where
  total_items : ℕ
  downloaded : ℕ
  already_downloaded : ℕ
  failed : ℕ
  dry_run_listed : ℕ
  deriving Repr, DecidableEq

/-- The `for item in items` loop of `download_plan` (non-dry-run).
`oracle n` is whether the `n`-th network download succeeds (`false`:
`download_tcx` raises `FitbitAPIError`, counted as a failure).  `pre` is
the already-processed prefix of the in-place-mutated `items` list;
`persist` is whether a plan path was supplied.  Returns the summary
delta, the processed suffix, the plan documents written (in order), and
the final network-call counter. -/
def download_plan_items (oracle : ℕ → Bool) (persist : Bool) :
    List TCXDownloadItem → List TCXDownloadItem → ℕ →
    TCXDownloadSummary × List TCXDownloadItem × List (List TCXDownloadItem) × ℕ
  | _pre, [], n => (⟨0, 0, 0, 0, 0⟩, [], [], n)
  | pre, it :: rest, n =>
    if it.downloaded then
      let r := download_plan_items oracle persist (pre ++ [it]) rest n
      (⟨r.1.total_items, r.1.downloaded, r.1.already_downloaded + 1, r.1.failed,
        r.1.dry_run_listed⟩, it :: r.2.1, r.2.2.1, r.2.2.2)
    else if oracle n then
      let it2 : TCXDownloadItem := ⟨it.url, it.path, true⟩
      let r := download_plan_items oracle persist (pre ++ [it2]) rest (n + 1)
      (⟨r.1.total_items, r.1.downloaded + 1, r.1.already_downloaded, r.1.failed,
        r.1.dry_run_listed⟩, it2 :: r.2.1,
       (if persist then [pre ++ it2 :: rest] else []) ++ r.2.2.1, r.2.2.2)
    else
      let r := download_plan_items oracle persist (pre ++ [it]) rest (n + 1)
      (⟨r.1.total_items, r.1.downloaded, r.1.already_downloaded, r.1.failed + 1,
        r.1.dry_run_listed⟩, it :: r.2.1, r.2.2.1, r.2.2.2)

/-- Embedding of `FitbitTCXDownloader.download_plan(plan, plan_path, dry_run)`:
summary, the final item list, the persisted plan documents, and the
number of network calls made. -/
def download_plan (oracle : ℕ → Bool) (persist dry_run : Bool)
    (plan : List TCXDownloadItem) :
    TCXDownloadSummary × List TCXDownloadItem × List (List TCXDownloadItem) × ℕ :=
  if dry_run then
    (⟨plan.length, 0, plan.countP (fun it => it.downloaded),
      0, plan.countP (fun it => !it.downloaded)⟩, plan, [], 0)
  else
    let r := download_plan_items oracle persist [] plan 0
    (⟨plan.length, r.1.downloaded, r.1.already_downloaded, r.1.failed,
      r.1.dry_run_listed⟩, r.2.1, r.2.2.1, r.2.2.2)

/-- A JSON value inside an activity record.  `jstr s fv` is a string
together with the value `float(s.strip())` would produce (`none` when
`float` would raise).  Python `bool` is a subclass of `int`, so it gets
its own constructor and is accepted by numeric `isinstance` checks.
`jother b` is an opaque container with truthiness `b`. -/
inductive JVal where
  | null
  | jbool (b : Bool)
  | jint (n : ℤ)
  | jnum (q : ℚ)
  | jstr (s : String) (fv : Option ℚ)
  | jother (truthyFlag : Bool)
  deriving Repr, DecidableEq

/-- Python truthiness of an activity field value. -/
def JVal.truthy : JVal → Bool
  | .null => false
  | .jbool b => b
  | .jint n => n != 0
  | .jnum q => q != 0
  | .jstr s _ => s != ""
  | .jother b => b

/-- An activity record, restricted to the four fields `collect_plan`
reads; `none` is an absent key (`dict.get` returns `None`). -/
structure TCXActivity where
  distance : Option JVal
  hasGps : Option JVal
  tcx_link : Option JVal
  tcxLink : Option JVal
  deriving Repr, DecidableEq

/-- Embedding of `tcx._activity_has_distance(activity)`. -/
def activity_has_distance (a : TCXActivity) : Bool :=
  match a.distance with
  | none => false
  | some .null => false
  | some (.jbool b) => b
  | some (.jint n) => decide ((0 : ℤ) < n)
  | some (.jnum q) => decide ((0 : ℚ) < q)
  | some (.jstr _ fv) =>
    match fv with
    | some q => decide ((0 : ℚ) < q)
    | none => false
  | some (.jother _) => false

/-- Embedding of `tcx._activity_has_gps(activity)`. -/
def activity_has_gps (a : TCXActivity) : Bool :=
  match a.hasGps with
  | some (.jbool b) => b
  | some (.jstr s _) =>
    let lowered := strToLower (strTrim s)
    if lowered ∈ ["true", "1", "yes"] then true
    else if lowered ∈ ["false", "0", "no"] then false
    else false
  | _ => false

/-- Embedding of `tcx._extract_tcx_link(activity)`: `tcx_link or tcxLink`, then a
stripped non-empty string or `None`. -/
def extract_tcx_link (a : TCXActivity) : Option String :=
  let link :=
    match a.tcx_link with
    | some v => if v.truthy then some v else a.tcxLink
    | none => a.tcxLink
  match link with
  | some (.jstr s _) =>
    let normalized := strTrim s
    if normalized != "" then some normalized else none
  | _ => none

/-- Embedding of `urlparse(link).path`: strip fragment and query, and when a scheme
with `://` is present drop it and the authority (up to the next `/`). -/
def url_path (link : String) : String :=
  let cs := (link.toList.takeWhile (fun c => c != '#')).takeWhile (fun c => c != '?')
  match splitFirstSub ("://".toList) cs with
  | none => String.mk cs
  | some (_, afterScheme) => String.mk (afterScheme.dropWhile (fun c => c != '/'))

/-- Embedding of `PurePath(p).name`: the last component, ignoring trailing slashes and
`.` components (which pathlib normalizes away). -/
def path_name (p : String) : String :=
  (((splitOnPred (fun c => c == '/') p.toList).map String.mk).filter
    (fun seg => seg != "" && seg != ".")).getLastD ""

/-- Embedding of `PurePath(name).stem` on a single component: drop the suffix, i.e.
everything from the last `.` when that dot is neither first nor last. -/
def path_stem (name : String) : String :=
  let cs := name.toList
  match cs.reverse.findIdx? (fun c => c == '.') with
  | none => name
  | some j =>
    let i := cs.length - 1 - j
    if 0 < i ∧ i < cs.length - 1 then String.mk (cs.take i) else name

/-- Embedding of `tcx._extract_tcx_id(link)`: the final path segment with the `.tcx`
suffix stripped, or `None` when it does not end in `.tcx`
(case-insensitively). -/
def extract_tcx_id (link : String) : Option String :=
  let name := path_name (url_path link)
  if strEndsWith (strToLower name) ".tcx" then some (strDropRight name 4) else none

/-- Python `str.isdigit` (over the ASCII digits the claims exercise). -/
def py_isdigit (s : String) : Bool :=
  s != "" && s.toList.all Char.isDigit

/-- Embedding of `tcx._resolve_year_month(relative_path)` over the path's components:
`none` when the function raises `ValueError`. -/
def resolve_year_month (parts : List String) : Option (String × String) :=
  if parts.length < 2 then none
  else
    let year := parts.headD ""
    let month := path_stem (parts.getLastD "")
    if py_isdigit year = false ∨ month.length = 0 then none
    else some (year, month)

/-- Scan context for `collect_plan`: the output directory and the
`Path.exists` oracle for destination files. -/
structure CollectConfig where
  output_dir : String
  file_exists : String → Bool

/-- The destination `output_path / year / f"{month}_{tcx_id}.tcx"`. -/
def tcx_output_path (cfg : CollectConfig) (year month tcx_id : String) : String :=
  cfg.output_dir ++ "/" ++ year ++ "/" ++ month ++ "_" ++ tcx_id ++ ".tcx"

/-- The `for activity in data` loop of `collect_plan` over one shard's
records, threading the `seen_urls` set (as a membership list).  Returns
the items appended for this shard and the updated seen set. -/
def collect_acts (cfg : CollectConfig) (year month : String) :
    List TCXActivity → List String → List TCXDownloadItem × List String
  | [], seen => ([], seen)
  | a :: rest, seen =>
    if activity_has_distance a = false then collect_acts cfg year month rest seen
    else if activity_has_gps a = false then collect_acts cfg year month rest seen
    else
      match extract_tcx_link a with
      | none => collect_acts cfg year month rest seen
      | some link =>
        if link ∈ seen then collect_acts cfg year month rest seen
        else
          match extract_tcx_id link with
          | none => collect_acts cfg year month rest seen
          | some tcx_id =>
            if tcx_id = "" then collect_acts cfg year month rest seen
            else
              let p := tcx_output_path cfg year month tcx_id
              let r := collect_acts cfg year month rest (link :: seen)
              (⟨link, p, cfg.file_exists p⟩ :: r.1, r.2)

/-- A shard file's parsed content: `invalid` when `_load_json_array`
raises `ValueError`. -/
inductive ShardContent where
  | invalid
  | acts (l : List TCXActivity)

/-- One shard file under the activities root: its relative-path
components and parsed content. -/
structure ShardFile where
  parts : List String
  content : ShardContent

/-- Result of the shard-file scan: plan items, the seen-URL set, and the
warnings logged for skipped files (path, log event name). -/
structure CollectResult where
  items : List TCXDownloadItem
  seen : List String
  warnings : List (List String × String)

/-- The `for json_file in sorted(...)` loop of `collect_plan` (the input
list is taken in the already-sorted scan order). -/
def collect_files (cfg : CollectConfig) :
    List ShardFile → List String → CollectResult
  | [], seen => ⟨[], seen, []⟩
  | f :: rest, seen =>
    match resolve_year_month f.parts with
    | none =>
      let r := collect_files cfg rest seen
      ⟨r.items, r.seen, (f.parts, "invalid_activity_file_path") :: r.warnings⟩
    | some (year, month) =>
      match f.content with
      | .invalid =>
        let r := collect_files cfg rest seen
        ⟨r.items, r.seen, (f.parts, "invalid_activity_file") :: r.warnings⟩
      | .acts l =>
        let inner := collect_acts cfg year month l seen
        let r := collect_files cfg rest inner.2
        ⟨inner.1 ++ r.items, r.seen, r.warnings⟩

/-- Embedding of `FitbitTCXDownloader.collect_plan(activities_dir, output_dir)`. -/
def collect_plan (cfg : CollectConfig) (files : List ShardFile) : List TCXDownloadItem :=
  (collect_files cfg files []).items

/-- The per-record acceptance condition of `collect_plan`, ignoring
de-duplication: the URL a record contributes if it has a positive
distance, a true GPS flag, and a usable link with a non-empty id. -/
def eligible_url (a : TCXActivity) : Option String :=
  if activity_has_distance a = true ∧ activity_has_gps a = true then
    match extract_tcx_link a with
    | some link =>
      match extract_tcx_id link with
      | some tcx_id => if tcx_id = "" then none else some link
      | none => none
    | none => none
  else none

/-- First-occurrence de-duplication against an initial seen set. -/
def dedup_first (seen : List String) : List String → List String
  | [] => []
  | u :: us => if u ∈ seen then dedup_first seen us else u :: dedup_first (u :: seen) us

/-- The plan item `collect_plan` builds for an accepted URL. -/
def mk_plan_item (cfg : CollectConfig) (year month : String) (link : String) :
    TCXDownloadItem :=
  let p := tcx_output_path cfg year month ((extract_tcx_id link).getD "")
  ⟨link, p, cfg.file_exists p⟩

/-! ## Claim C8 -/

/-- C8: `will_expire_within` (the spec's `is_expiring`) is true iff
`expires_at` is set and at or before `now + lookahead`; a token without
`expires_at` is never expiring; a token expiring exactly at
`now + lookahead` is expiring; the default lookahead is 60 seconds. -/
theorem c8_is_expiring_iff :
    (∀ (t : TokenData) (now delta : ℚ),
      t.will_expire_within now delta = true ↔
        ∃ e, t.expires_at = some e ∧ e ≤ now + delta)
    ∧ (∀ (t : TokenData) (now : ℚ), t.expires_at = none →
        t.will_expire_within now defaultExpiryLookahead = false)
    ∧ (∀ (t : TokenData) (now : ℚ), t.expires_at = some (now + defaultExpiryLookahead) →
        t.will_expire_within now defaultExpiryLookahead = true)
    ∧ defaultExpiryLookahead = 60 := by
  refine ⟨?_, ?_, ?_, rfl⟩
  · intro t now delta
    cases h : t.expires_at with
    | none => simp [TokenData.will_expire_within, h]
    | some e => simp [TokenData.will_expire_within, h]
  · intro t now h
    simp [TokenData.will_expire_within, h]
  · intro t now h
    simp [TokenData.will_expire_within, h]

/-! ## Claim C4 -/

/-- C4: the 429 backoff delay is the parsed `Retry-After` header floored
at 1 second; else the parsed `Fitbit-Rate-Limit-Reset` header floored at
1 second; else `min(60, max(1, 2^attempt))`; it is always at least 1
second and the exponential fallback never exceeds 60 seconds. -/
theorem c4_rate_limit_delay_formula :
    (∀ (r : HttpResponse) (a : ℕ) (q : ℚ), r.retryAfter = .secs q →
        rate_limit_delay r a = max 1 q)
    ∧ (∀ (r : HttpResponse) (a : ℕ) (q : ℚ), r.retryAfter.parses = false →
        r.rateLimitReset = .secs q → rate_limit_delay r a = max 1 q)
    ∧ (∀ (r : HttpResponse) (a : ℕ), r.retryAfter.parses = false →
        r.rateLimitReset.parses = false →
        rate_limit_delay r a = min 60 (max 1 ((2 : ℚ) ^ a))
        ∧ rate_limit_delay r a ≤ 60)
    ∧ (∀ (r : HttpResponse) (a : ℕ), 1 ≤ rate_limit_delay r a) := by
  refine ⟨?_, ?_, ?_, ?_⟩
  · intro r a q h
    simp [rate_limit_delay, h]
  · intro r a q h1 h2
    cases hra : r.retryAfter with
    | absent => simp [rate_limit_delay, hra, h2]
    | unparseable => simp [rate_limit_delay, hra, h2]
    | secs q2 => rw [hra] at h1; simp [PyHdr.parses] at h1
  · intro r a h1 h2
    have hfall : rate_limit_delay r a = min 60 (max 1 ((2 : ℚ) ^ a)) := by
      cases hra : r.retryAfter with
      | secs q2 => rw [hra] at h1; simp [PyHdr.parses] at h1
      | absent =>
        cases hrr : r.rateLimitReset with
        | secs q2 => rw [hrr] at h2; simp [PyHdr.parses] at h2
        | absent => simp [rate_limit_delay, hra, hrr]
        | unparseable => simp [rate_limit_delay, hra, hrr]
      | unparseable =>
        cases hrr : r.rateLimitReset with
        | secs q2 => rw [hrr] at h2; simp [PyHdr.parses] at h2
        | absent => simp [rate_limit_delay, hra, hrr]
        | unparseable => simp [rate_limit_delay, hra, hrr]
    exact ⟨hfall, by rw [hfall]; exact min_le_left _ _⟩
  · intro r a
    unfold rate_limit_delay
    cases hra : r.retryAfter with
    | secs q => exact le_max_left _ _
    | absent =>
      cases hrr : r.rateLimitReset with
      | secs q => exact le_max_left _ _
      | absent => exact le_min (by norm_num) (le_max_left _ _)
      | unparseable => exact le_min (by norm_num) (le_max_left _ _)
    | unparseable =>
      cases hrr : r.rateLimitReset with
      | secs q => exact le_max_left _ _
      | absent => exact le_min (by norm_num) (le_max_left _ _)
      | unparseable => exact le_min (by norm_num) (le_max_left _ _)

/-! ## Claim C3 -/

/-- C3 counterexample: when the stored token has no `refresh_token`, the
forced refresh triggered by a 401 raises an exception of the very same
Python class (`FitbitAPIError`) as ordinary API failures — the code
defines no distinct `AuthError` class. -/
theorem c3_counterexample :
    request ⟨5, false, true, 200⟩ true false [⟨401, .absent, .absent⟩] =
      some (.error .refreshTokenMissing, ⟨1, [], 1⟩)
    ∧ ApiError.pyClass .refreshTokenMissing = ApiError.pyClass (.callFailed 401) := by
  exact ⟨rfl, rfl⟩

/-- C3 (amended): with `retry_on_unauthorized` enabled, the first 401
triggers exactly one forced refresh and one resend; a 401 on the resend
raises `APIError`; the forced refresh itself fails — with the same
`FitbitAPIError` class, the repository's only API error type — when no
`refresh_token` is present or when client id/secret are unset. -/
theorem c3_unauthorized_retry :
    (∀ (cfg : ClientConfig) (r1 ok : HttpResponse) (extra : List HttpResponse),
      cfg.hasRefreshToken = true → cfg.hasClientCredentials = true →
      cfg.refreshStatus < 400 → r1.status = 401 → ok.status < 400 →
      request cfg true false (r1 :: ok :: extra) = some (.ok ok, ⟨2, [], 1⟩))
    ∧ (∀ (cfg : ClientConfig) (r1 r2 : HttpResponse) (extra : List HttpResponse),
      cfg.hasRefreshToken = true → cfg.hasClientCredentials = true →
      cfg.refreshStatus < 400 → r1.status = 401 → r2.status = 401 →
      request cfg true false (r1 :: r2 :: extra) =
        some (.error (.callFailed 401), ⟨2, [], 1⟩))
    ∧ (∀ (cfg : ClientConfig) (r1 : HttpResponse) (extra : List HttpResponse),
      cfg.hasRefreshToken = false → r1.status = 401 →
      request cfg true false (r1 :: extra) =
        some (.error .refreshTokenMissing, ⟨1, [], 1⟩))
    ∧ (∀ (cfg : ClientConfig) (r1 : HttpResponse) (extra : List HttpResponse),
      cfg.hasRefreshToken = true → cfg.hasClientCredentials = false → r1.status = 401 →
      request cfg true false (r1 :: extra) =
        some (.error .missingClientCredentials, ⟨1, [], 1⟩))
    ∧ (∀ e : ApiError, e.pyClass = .fitbitAPIError) := by
  have hfresh : ∀ cfg : ClientConfig, ensure_fresh_token cfg false = .ok false := by
    intro cfg; simp [ensure_fresh_token]
  refine ⟨?_, ?_, ?_, ?_, fun _ => rfl⟩
  · intro cfg r1 ok extra h1 h2 h3 hr1 hok
    have hnot400 : ¬ (400 ≤ cfg.refreshStatus) := by omega
    have hok401 : ¬ (ok.status = 401 ∧ (false = true)) := by simp
    have hok429 : ¬ (ok.status = 429 ∧ 0 < cfg.max_rate_limit_retries) := by
      rintro ⟨h, -⟩; omega
    have hokge : ¬ (400 ≤ ok.status) := by omega
    simp only [request, request_go, hfresh, hr1, refresh_access_token, h1, h2, hnot400]
    simp [request_go, hfresh, hok401, hok429, hokge]
  · intro cfg r1 r2 extra h1 h2 h3 hr1 hr2
    have hnot400 : ¬ (400 ≤ cfg.refreshStatus) := by omega
    have hr401 : ¬ (r2.status = 401 ∧ (false = true)) := by simp
    have hr429 : ¬ (r2.status = 429 ∧ 0 < cfg.max_rate_limit_retries) := by
      rintro ⟨h, -⟩; rw [hr2] at h; omega
    have hrge : 400 ≤ r2.status := by omega
    simp only [request, request_go, hfresh, hr1, refresh_access_token, h1, h2, hnot400]
    simp [request_go, hfresh, hr401, hr429, hrge, hr2]
  · intro cfg r1 extra h1 hr1
    simp [request, request_go, hfresh, hr1, refresh_access_token, h1]
  · intro cfg r1 extra h1 h2 hr1
    simp [request, request_go, hfresh, hr1, refresh_access_token, h1, h2]

/-! ## Claim C1 -/

theorem request_go_429_block (cfg : ClientConfig) (ra : Bool) :
    ∀ (rs : List HttpResponse) (attempts : ℕ) (tr : RequestTrace) (rest : List HttpResponse),
      (∀ r ∈ rs, r.status = 429) →
      attempts + rs.length ≤ cfg.max_rate_limit_retries →
      request_go cfg ra attempts false tr (rs ++ rest) =
        request_go cfg ra (attempts + rs.length) false
          ⟨tr.sends + rs.length, tr.sleeps ++ delays_from attempts rs, tr.forcedRefreshes⟩
          rest := by
  intro rs
  induction rs with
  | nil =>
    intro attempts tr rest _ _
    simp [delays_from]
  | cons r rs ih =>
    intro attempts tr rest hall hle
    have hr : r.status = 429 := hall r (by simp)
    have h401 : ¬ (r.status = 401 ∧ ra = true) := by
      rintro ⟨h, -⟩; rw [hr] at h; omega
    have hlt : attempts < cfg.max_rate_limit_retries := by
      simp only [List.length_cons] at hle; omega
    have h429 : r.status = 429 ∧ attempts < cfg.max_rate_limit_retries := ⟨hr, hlt⟩
    have step :
        request_go cfg ra attempts false tr (r :: (rs ++ rest)) =
          request_go cfg ra (attempts + 1) false
            ⟨tr.sends + 1, tr.sleeps ++ [rate_limit_delay r attempts], tr.forcedRefreshes⟩
            (rs ++ rest) := by
      simp only [request_go, ensure_fresh_token, if_neg (by simp : ¬ (false = true))]
      rw [if_neg h401, if_pos h429]
    rw [List.cons_append, step,
      ih (attempts + 1)
        ⟨tr.sends + 1, tr.sleeps ++ [rate_limit_delay r attempts], tr.forcedRefreshes⟩
        rest (fun x hx => hall x (by simp [hx]))
        (by simp only [List.length_cons] at hle; omega)]
    have harith1 : attempts + 1 + rs.length = attempts + (r :: rs).length := by
      simp; omega
    have harith2 : tr.sends + 1 + rs.length = tr.sends + (r :: rs).length := by
      simp; omega
    have hsleeps :
        (tr.sleeps ++ [rate_limit_delay r attempts]) ++ delays_from (attempts + 1) rs
          = tr.sleeps ++ delays_from attempts (r :: rs) := by
      simp [delays_from]
    rw [harith1, harith2, hsleeps]

/-- C1: with configured maximum rate-limit retries `N` (default 5), a
429 on `N+1` consecutive sends raises `APIError`; a run of at most `N`
429s followed by a response with status `< 400` returns that response,
with one sleep of the computed delay before each resend. -/
theorem c1_rate_limit_retry_policy :
    default_max_rate_limit_retries = 5
    ∧ (∀ (cfg : ClientConfig) (ra : Bool) (rs : List HttpResponse) (r : HttpResponse)
        (extra : List HttpResponse),
        (∀ x ∈ rs, x.status = 429) → rs.length = cfg.max_rate_limit_retries →
        r.status = 429 →
        request cfg ra false (rs ++ r :: extra) =
          some (.error (.callFailed 429),
                ⟨cfg.max_rate_limit_retries + 1, delays_from 0 rs, 0⟩))
    ∧ (∀ (cfg : ClientConfig) (ra : Bool) (rs : List HttpResponse) (ok : HttpResponse)
        (extra : List HttpResponse),
        (∀ x ∈ rs, x.status = 429) → rs.length ≤ cfg.max_rate_limit_retries →
        ok.status < 400 →
        request cfg ra false (rs ++ ok :: extra) =
          some (.ok ok, ⟨rs.length + 1, delays_from 0 rs, 0⟩)) := by
  refine ⟨rfl, ?_, ?_⟩
  · intro cfg ra rs r extra hall hlen hr
    unfold request
    rw [request_go_429_block cfg ra rs 0 ⟨0, [], 0⟩ (r :: extra) hall (by omega)]
    have h401 : ¬ (r.status = 401 ∧ ra = true) := by
      rintro ⟨h, -⟩; rw [hr] at h; omega
    have h429 : ¬ (r.status = 429 ∧ 0 + rs.length < cfg.max_rate_limit_retries) := by
      rintro ⟨-, h⟩; omega
    have hge : 400 ≤ r.status := by omega
    simp only [request_go, ensure_fresh_token, if_neg (by simp : ¬ (false = true))]
    rw [if_neg h401, if_neg h429, if_pos hge]
    simp [hr, hlen]
  · intro cfg ra rs ok extra hall hlen hok
    unfold request
    rw [request_go_429_block cfg ra rs 0 ⟨0, [], 0⟩ (ok :: extra) hall (by omega)]
    have h401 : ¬ (ok.status = 401 ∧ ra = true) := by
      rintro ⟨h, -⟩; omega
    have h429 : ¬ (ok.status = 429 ∧ 0 + rs.length < cfg.max_rate_limit_retries) := by
      rintro ⟨h, -⟩; omega
    have hge : ¬ (400 ≤ ok.status) := by omega
    simp only [request_go, ensure_fresh_token, if_neg (by simp : ¬ (false = true))]
    rw [if_neg h401, if_neg h429, if_neg hge]
    simp

/-! ## download_plan lemmas -/

theorem download_plan_items_counts (oracle : ℕ → Bool) (persist : Bool) :
    ∀ (rest pre : List TCXDownloadItem) (n : ℕ),
      (download_plan_items oracle persist pre rest n).1.downloaded
        + (download_plan_items oracle persist pre rest n).1.already_downloaded
        + (download_plan_items oracle persist pre rest n).1.failed
        = rest.length
      ∧ (download_plan_items oracle persist pre rest n).1.dry_run_listed = 0 := by
  intro rest
  induction rest with
  | nil => intro pre n; simp [download_plan_items]
  | cons it rest ih =>
    intro pre n
    by_cases h : it.downloaded = true
    · have := ih (pre ++ [it]) n
      simp only [download_plan_items, if_pos h]
      constructor
      · simp only [List.length_cons]; omega
      · exact this.2
    · rw [Bool.not_eq_true] at h
      by_cases ho : oracle n = true
      · have := ih (pre ++ [⟨it.url, it.path, true⟩]) (n + 1)
        simp only [download_plan_items, h, Bool.false_eq_true, if_false, if_pos ho]
        constructor
        · simp only [List.length_cons]; omega
        · exact this.2
      · rw [Bool.not_eq_true] at ho
        have := ih (pre ++ [it]) (n + 1)
        simp only [download_plan_items, h, Bool.false_eq_true, if_false, ho]
        constructor
        · simp only [List.length_cons]; omega
        · exact this.2

theorem download_plan_items_length (oracle : ℕ → Bool) (persist : Bool) :
    ∀ (rest pre : List TCXDownloadItem) (n : ℕ),
      (download_plan_items oracle persist pre rest n).2.1.length = rest.length := by
  intro rest
  induction rest with
  | nil => intro pre n; simp [download_plan_items]
  | cons it rest ih =>
    intro pre n
    by_cases h : it.downloaded = true
    · simp only [download_plan_items, if_pos h, List.length_cons, ih]
    · rw [Bool.not_eq_true] at h
      by_cases ho : oracle n = true
      · simp only [download_plan_items, h, Bool.false_eq_true, if_false, if_pos ho,
          List.length_cons, ih]
      · rw [Bool.not_eq_true] at ho
        simp only [download_plan_items, h, Bool.false_eq_true, if_false, ho,
          List.length_cons, ih]

theorem download_plan_items_snaps (oracle : ℕ → Bool) :
    ∀ (rest pre : List TCXDownloadItem) (n : ℕ),
      (download_plan_items oracle true pre rest n).2.2.1.length
        = (download_plan_items oracle true pre rest n).1.downloaded
      ∧ ∀ sn ∈ (download_plan_items oracle true pre rest n).2.2.1,
          sn.map (fun it => it.url) = (pre ++ rest).map (fun it => it.url)
          ∧ sn.map (fun it => it.path) = (pre ++ rest).map (fun it => it.path) := by
  intro rest
  induction rest with
  | nil => intro pre n; simp [download_plan_items]
  | cons it rest ih =>
    intro pre n
    by_cases h : it.downloaded = true
    · have := ih (pre ++ [it]) n
      simp only [download_plan_items, if_pos h]
      refine ⟨this.1, fun sn hsn => ?_⟩
      have := this.2 sn hsn
      simpa using this
    · rw [Bool.not_eq_true] at h
      by_cases ho : oracle n = true
      · have hrec := ih (pre ++ [(⟨it.url, it.path, true⟩ : TCXDownloadItem)]) (n + 1)
        simp only [download_plan_items, h, Bool.false_eq_true, if_false, if_pos ho,
          if_pos rfl]
        constructor
        · simp [hrec.1]
        · intro sn hsn
          simp only [if_true, List.mem_append, List.mem_singleton] at hsn
          rcases hsn with hsn | hsn
          · subst hsn
            simp
          · have := hrec.2 sn hsn
            simpa using this
      · rw [Bool.not_eq_true] at ho
        have hrec := ih (pre ++ [it]) (n + 1)
        simp only [download_plan_items, h, Bool.false_eq_true, if_false, ho]
        refine ⟨hrec.1, fun sn hsn => ?_⟩
        have := hrec.2 sn hsn
        simpa using this

theorem download_plan_items_pointwise (oracle : ℕ → Bool) (persist : Bool) :
    ∀ (rest pre : List TCXDownloadItem) (n : ℕ) (i : ℕ),
      (download_plan_items oracle persist pre rest n).2.1.get? i = rest.get? i
      ∨ ∃ it : TCXDownloadItem, rest.get? i = some it ∧ it.downloaded = false
          ∧ (download_plan_items oracle persist pre rest n).2.1.get? i
              = some ⟨it.url, it.path, true⟩ := by
  intro rest
  induction rest with
  | nil => intro pre n i; left; simp [download_plan_items]
  | cons it rest ih =>
    intro pre n i
    by_cases h : it.downloaded = true
    · simp only [download_plan_items, if_pos h]
      cases i with
      | zero => left; rfl
      | succ j =>
        have := ih (pre ++ [it]) n j
        simpa using this
    · rw [Bool.not_eq_true] at h
      by_cases ho : oracle n = true
      · simp only [download_plan_items, h, Bool.false_eq_true, if_false, if_pos ho]
      
        cases i with
        | zero =>
          right
          exact ⟨it, rfl, h, rfl⟩
        | succ j =>
          have := ih (pre ++ [(⟨it.url, it.path, true⟩ : TCXDownloadItem)]) (n + 1) j
          simpa using this
      · rw [Bool.not_eq_true] at ho
        simp only [download_plan_items, h, Bool.false_eq_true, if_false, ho]
        cases i with
        | zero => left; rfl
        | succ j =>
          have := ih (pre ++ [it]) (n + 1) j
          simpa using this

theorem download_plan_items_all_downloaded (oracle : ℕ → Bool) (persist : Bool) :
    ∀ (rest pre : List TCXDownloadItem) (n : ℕ),
      (∀ it ∈ rest, it.downloaded = true) →
      download_plan_items oracle persist pre rest n
        = (⟨0, 0, rest.length, 0, 0⟩, rest, [], n) := by
  intro rest
  induction rest with
  | nil => intro pre n _; simp [download_plan_items]
  | cons it rest ih =>
    intro pre n hall
    have h : it.downloaded = true := hall it (by simp)
    rw [download_plan_items, if_pos h, ih (pre ++ [it]) n (fun x hx => hall x (by simp [hx]))]
    simp

theorem download_plan_items_failed_zero (oracle : ℕ → Bool) (persist : Bool) :
    ∀ (rest pre : List TCXDownloadItem) (n : ℕ),
      (download_plan_items oracle persist pre rest n).1.failed = 0 →
      ∀ it ∈ (download_plan_items oracle persist pre rest n).2.1, it.downloaded = true := by
  intro rest
  induction rest with
  | nil => intro pre n _ it hit; simp [download_plan_items] at hit
  | cons it rest ih =>
    intro pre n hz x hx
    by_cases h : it.downloaded = true
    · rw [download_plan_items, if_pos h] at hz hx
      simp only [List.mem_cons] at hx
      rcases hx with rfl | hx
      · exact h
      · exact ih (pre ++ [it]) n hz x hx
    · rw [Bool.not_eq_true] at h
      by_cases ho : oracle n = true
      · rw [download_plan_items, h] at hz hx
        simp only [Bool.false_eq_true, if_false, if_pos ho] at hz hx
        simp only [List.mem_cons] at hx
        rcases hx with rfl | hx
        · rfl
        · exact ih (pre ++ [(⟨it.url, it.path, true⟩ : TCXDownloadItem)]) (n + 1) hz x hx
      · rw [Bool.not_eq_true] at ho
        rw [download_plan_items, h] at hz
        simp only [Bool.false_eq_true, if_false, ho] at hz
        omega

/-! ## Claim C10 -/

theorem countP_not_add (p : TCXDownloadItem → Bool) :
    ∀ l : List TCXDownloadItem, l.countP (fun it => !p it) + l.countP p = l.length := by
  intro l
  induction l with
  | nil => simp
  | cons a l ih =>
    by_cases h : p a = true
    · simp [List.countP_cons, h]; omega
    · rw [Bool.not_eq_true] at h
      simp [List.countP_cons, h]; omega

/-- C10: the summary is an exact accounting — in non-dry-run mode
`downloaded + alreadyDownloaded + failed = total` and `dryRunListed = 0`;
in dry-run mode `dryRunListed + alreadyDownloaded = total` and
`downloaded = failed = 0`. -/
theorem c10_summary_accounting :
    (∀ (oracle : ℕ → Bool) (persist : Bool) (plan : List TCXDownloadItem),
      (download_plan oracle persist false plan).1.downloaded
        + (download_plan oracle persist false plan).1.already_downloaded
        + (download_plan oracle persist false plan).1.failed
        = (download_plan oracle persist false plan).1.total_items
      ∧ (download_plan oracle persist false plan).1.dry_run_listed = 0)
    ∧ (∀ (oracle : ℕ → Bool) (persist : Bool) (plan : List TCXDownloadItem),
      (download_plan oracle persist true plan).1.dry_run_listed
        + (download_plan oracle persist true plan).1.already_downloaded
        = (download_plan oracle persist true plan).1.total_items
      ∧ (download_plan oracle persist true plan).1.downloaded = 0
      ∧ (download_plan oracle persist true plan).1.failed = 0) := by
  constructor
  · intro oracle persist plan
    have hc := download_plan_items_counts oracle persist plan [] 0
    simp only [download_plan]
    refine ⟨?_, hc.2⟩
    simpa using hc.1
  · intro oracle persist plan
    refine ⟨?_, rfl, rfl⟩
    simp only [download_plan]
    exact countP_not_add (fun it => it.downloaded) plan

/-! ## Claim C2 -/

/-- C2: with a persist path supplied, the whole plan is rewritten after
every successful item (one snapshot per success, each snapshot a complete
plan with the original urls and paths, round-tripping through
`save_plan`/`load_plan`); no item's `downloaded` flag ever flips from
true back to false; and for a three-item plan starting all
not-downloaded, the first persisted document reloads to exactly one item
with `downloaded = true`. -/
theorem c2_checkpoint_persistence :
    (∀ (oracle : ℕ → Bool) (plan : List TCXDownloadItem),
      (download_plan oracle true false plan).2.2.1.length
        = (download_plan oracle true false plan).1.downloaded)
    ∧ (∀ (oracle : ℕ → Bool) (plan : List TCXDownloadItem),
        ∀ sn ∈ (download_plan oracle true false plan).2.2.1,
          sn.map (fun it => it.url) = plan.map (fun it => it.url)
          ∧ sn.map (fun it => it.path) = plan.map (fun it => it.path)
          ∧ load_plan (save_plan sn) = sn)
    ∧ (∀ (oracle : ℕ → Bool) (persist dry : Bool) (plan : List TCXDownloadItem) (i : ℕ)
        (it : TCXDownloadItem), plan.get? i = some it → it.downloaded = true →
        ∃ it2 : TCXDownloadItem,
          (download_plan oracle persist dry plan).2.1.get? i = some it2
          ∧ it2.downloaded = true)
    ∧ (∀ (oracle : ℕ → Bool) (u1 p1 u2 p2 u3 p3 : String), oracle 0 = true →
        (download_plan oracle true false
            [⟨u1, p1, false⟩, ⟨u2, p2, false⟩, ⟨u3, p3, false⟩]).2.2.1.head?
          = some [⟨u1, p1, true⟩, ⟨u2, p2, false⟩, ⟨u3, p3, false⟩]
        ∧ (load_plan (save_plan [⟨u1, p1, true⟩, ⟨u2, p2, false⟩, ⟨u3, p3, false⟩])).countP
            (fun it => it.downloaded) = 1) := by
  have hround : ∀ l : List TCXDownloadItem, load_plan (save_plan l) = l := by
    intro l
    have hcomp : TCXDownloadItem.from_dict ∘ TCXDownloadItem.to_dict = id :=
      funext fun _ => rfl
    simp [load_plan, save_plan, List.map_map, hcomp]
  refine ⟨?_, ?_, ?_, ?_⟩
  · intro oracle plan
    have := (download_plan_items_snaps oracle plan [] 0).1
    simp only [download_plan]
    exact this
  · intro oracle plan sn hsn
    simp only [download_plan] at hsn
    have := (download_plan_items_snaps oracle plan [] 0).2 sn hsn
    exact ⟨by simpa using this.1, by simpa using this.2, hround sn⟩
  · intro oracle persist dry plan i it hget hdl
    by_cases hdry : dry = true
    · subst hdry
      exact ⟨it, by simpa [download_plan] using hget, hdl⟩
    · rw [Bool.not_eq_true] at hdry
      subst hdry
      have := download_plan_items_pointwise oracle persist plan [] 0 i
      simp only [download_plan, Bool.false_eq_true, if_false]
      rcases this with h | ⟨it3, hit3, hfl, hres⟩
      · exact ⟨it, by rw [h, hget], hdl⟩
      · rw [hget] at hit3
        cases hit3
        rw [hdl] at hfl
        cases hfl
  · intro oracle u1 p1 u2 p2 u3 p3 ho
    constructor
    · simp only [download_plan, download_plan_items, Bool.false_eq_true, if_false, ho,
        if_pos rfl]
      simp
    · rw [hround]
      simp [List.countP_cons]

/-! ## Claim C6 -/

/-- C6: when the first (non-dry-run) execution of a plan fails on no
item, re-executing the resulting plan yields `downloaded = 0`,
`alreadyDownloaded = total` and performs no network calls. -/
theorem c6_second_run_idempotent (oracle1 oracle2 : ℕ → Bool) (p1 p2 : Bool)
    (plan : List TCXDownloadItem)
    (h : (download_plan oracle1 p1 false plan).1.failed = 0) :
    (download_plan oracle2 p2 false ((download_plan oracle1 p1 false plan).2.1)).1
      = ⟨plan.length, 0, plan.length, 0, 0⟩
    ∧ (download_plan oracle2 p2 false ((download_plan oracle1 p1 false plan).2.1)).2.2.2
      = 0 := by
  have hfail : (download_plan_items oracle1 p1 [] plan 0).1.failed = 0 := by
    simpa [download_plan] using h
  have hall : ∀ it ∈ (download_plan_items oracle1 p1 [] plan 0).2.1, it.downloaded = true :=
    download_plan_items_failed_zero oracle1 p1 plan [] 0 hfail
  have hlen : (download_plan_items oracle1 p1 [] plan 0).2.1.length = plan.length :=
    download_plan_items_length oracle1 p1 plan [] 0
  have hfin : (download_plan oracle1 p1 false plan).2.1
      = (download_plan_items oracle1 p1 [] plan 0).2.1 := by
    simp [download_plan]
  rw [hfin]
  have hrun := download_plan_items_all_downloaded oracle2 p2
    ((download_plan_items oracle1 p1 [] plan 0).2.1) [] 0 hall
  constructor
  · simp [download_plan, hrun, hlen]
  · simp [download_plan, hrun]

/-- C6 witness: a one-item plan downloaded successfully, then re-executed. -/
theorem c6_witness :
    (download_plan (fun _ => true) false false
        ((download_plan (fun _ => true) false false [⟨"u", "p", false⟩]).2.1)).1
      = ⟨1, 0, 1, 0, 0⟩
    ∧ (download_plan (fun _ => true) false false
        ((download_plan (fun _ => true) false false [⟨"u", "p", false⟩]).2.1)).2.2.2
      = 0 :=
  c6_second_run_idempotent (fun _ => true) (fun _ => true) false false
    [⟨"u", "p", false⟩] rfl

/-! ## Claim C5 -/

theorem collect_acts_spec (cfg : CollectConfig) (year month : String) :
    ∀ (acts : List TCXActivity) (seen : List String),
      collect_acts cfg year month acts seen =
        ((dedup_first seen (acts.filterMap eligible_url)).map (mk_plan_item cfg year month),
         (dedup_first seen (acts.filterMap eligible_url)).reverse ++ seen) := by
  intro acts
  induction acts with
  | nil => intro seen; simp [collect_acts, dedup_first]
  | cons a rest ih =>
    intro seen
    by_cases hd : activity_has_distance a = true
    · by_cases hg : activity_has_gps a = true
      · cases hl : extract_tcx_link a with
        | none =>
          have he : eligible_url a = none := by
            simp [eligible_url, hd, hg, hl]
          simp [collect_acts, hd, hg, hl, List.filterMap_cons, he, ih]
        | some link =>
          cases hid : extract_tcx_id link with
          | none =>
            have he : eligible_url a = none := by
              simp [eligible_url, hd, hg, hl, hid]
            by_cases hseen : link ∈ seen
            · simp [collect_acts, hd, hg, hl, hseen, List.filterMap_cons, he, ih]
            · simp [collect_acts, hd, hg, hl, hseen, hid, List.filterMap_cons, he, ih]
          | some tid =>
            by_cases htid : tid = ""
            · have he : eligible_url a = none := by
                simp [eligible_url, hd, hg, hl, hid, htid]
              by_cases hseen : link ∈ seen
              · simp [collect_acts, hd, hg, hl, hseen, List.filterMap_cons, he, ih]
              · simp [collect_acts, hd, hg, hl, hseen, hid, htid, List.filterMap_cons, he, ih]
            · have he : eligible_url a = some link := by
                simp [eligible_url, hd, hg, hl, hid, htid]
              by_cases hseen : link ∈ seen
              · simp [collect_acts, hd, hg, hl, hseen, List.filterMap_cons, he, ih,
                  dedup_first]
              · have hmk : mk_plan_item cfg year month link
                    = ⟨link, tcx_output_path cfg year month tid,
                       cfg.file_exists (tcx_output_path cfg year month tid)⟩ := by
                  simp [mk_plan_item, hid]
                simp [collect_acts, hd, hg, hl, hseen, hid, htid, List.filterMap_cons, he,
                  ih, dedup_first, hmk]
      · rw [Bool.not_eq_true] at hg
        have he : eligible_url a = none := by
          simp [eligible_url, hg]
        simp [collect_acts, hd, hg, List.filterMap_cons, he, ih]
    · rw [Bool.not_eq_true] at hd
      have he : eligible_url a = none := by
        simp [eligible_url, hd]
      simp [collect_acts, hd, List.filterMap_cons, he, ih]

theorem dedup_first_nodup :
    ∀ (us seen : List String),
      (dedup_first seen us).Nodup ∧ ∀ u ∈ dedup_first seen us, u ∉ seen := by
  intro us
  induction us with
  | nil => intro seen; simp [dedup_first]
  | cons u us ih =>
    intro seen
    by_cases h : u ∈ seen
    · simpa [dedup_first, h] using ih seen
    · have h2 := ih (u :: seen)
      constructor
      · rw [dedup_first, if_neg h]
        refine List.nodup_cons.mpr ⟨?_, h2.1⟩
        intro hmem
        exact (h2.2 u hmem) (by simp)
      · intro v hv
        rw [dedup_first, if_neg h] at hv
        rcases List.mem_cons.mp hv with rfl | hv2
        · exact h
        · intro hvseen
          exact (h2.2 v hv2) (by simp [hvseen])

/-- The record rejected by `collect_plan` although it satisfies the
claim's conditions: positive distance, GPS true, and a link whose final
path segment ends in `.tcx` — but with an empty identifier before the
extension. -/
def c5_bad_activity : TCXActivity :=
  ⟨some (.jint 1), some (.jbool true),
   some (.jstr "https://example.com/activities/.tcx" none), none⟩

/-- C5 counterexample: `c5_bad_activity` has a positive numeric distance,
a true GPS flag, and an extractable URL whose final path segment ends in
`.tcx`, yet `collect_plan`'s record loop produces no item for it, because
the identifier left after stripping the extension is empty. -/
theorem c5_counterexample :
    activity_has_distance c5_bad_activity = true
    ∧ activity_has_gps c5_bad_activity = true
    ∧ extract_tcx_link c5_bad_activity = some "https://example.com/activities/.tcx"
    ∧ strEndsWith (strToLower (path_name (url_path "https://example.com/activities/.tcx")))
        ".tcx" = true
    ∧ (collect_acts ⟨"out", fun _ => false⟩ "2024" "11" [c5_bad_activity] []).1 = [] := by
  refine ⟨by decide, by decide, by decide, by decide, by decide⟩

/-- C5 (amended): the record loop of `collect_plan` produces exactly the
items for URLs of records with a positive numeric distance, a true GPS
flag, and an extractable link whose final path segment ends in `.tcx`
(case-insensitively) with a *non-empty* identifier before the extension —
de-duplicated so that only the first occurrence of each URL in scan order
yields an item; the resulting URLs are pairwise distinct; a record
failing the distance or GPS test contributes nothing. -/
theorem c5_collect_plan_filtering :
    (∀ (cfg : CollectConfig) (year month : String) (acts : List TCXActivity)
        (seen : List String),
      collect_acts cfg year month acts seen =
        ((dedup_first seen (acts.filterMap eligible_url)).map (mk_plan_item cfg year month),
         (dedup_first seen (acts.filterMap eligible_url)).reverse ++ seen))
    ∧ (∀ (a : TCXActivity) (link : String),
        eligible_url a = some link ↔
          (activity_has_distance a = true ∧ activity_has_gps a = true
           ∧ extract_tcx_link a = some link
           ∧ ∃ i, extract_tcx_id link = some i ∧ i ≠ ""))
    ∧ (∀ (cfg : CollectConfig) (year month : String) (acts : List TCXActivity),
        (((collect_acts cfg year month acts []).1).map (fun it => it.url)).Nodup)
    ∧ (∀ a : TCXActivity,
        activity_has_distance a = false ∨ activity_has_gps a = false →
        eligible_url a = none) := by
  refine ⟨collect_acts_spec, ?_, ?_, ?_⟩
  · intro a link
    constructor
    · intro h
      by_cases hd : activity_has_distance a = true
      · by_cases hg : activity_has_gps a = true
        · cases hl : extract_tcx_link a with
          | none => simp [eligible_url, hd, hg, hl] at h
          | some l2 =>
            cases hid : extract_tcx_id l2 with
            | none => simp [eligible_url, hd, hg, hl, hid] at h
            | some tid =>
              by_cases htid : tid = ""
              · simp [eligible_url, hd, hg, hl, hid, htid] at h
              · simp [eligible_url, hd, hg, hl, hid, htid] at h
                subst h
                exact ⟨hd, hg, rfl, tid, hid, htid⟩
        · rw [Bool.not_eq_true] at hg
          simp [eligible_url, hg] at h
      · rw [Bool.not_eq_true] at hd
        simp [eligible_url, hd] at h
    · rintro ⟨hd, hg, hl, i, hid, hi⟩
      simp [eligible_url, hd, hg, hl, hid, hi]
  · intro cfg year month acts
    rw [collect_acts_spec cfg year month acts []]
    simp only [List.map_map]
    have hcomp : ((fun it : TCXDownloadItem => it.url) ∘ mk_plan_item cfg year month)
        = id := by
      funext link; rfl
    rw [hcomp, List.map_id]
    exact (dedup_first_nodup (acts.filterMap eligible_url) []).1
  · intro a h
    rcases h with h | h
    · rw [eligible_url, if_neg (fun hc => by rw [h] at hc; cases hc.1)]
    · rw [eligible_url, if_neg (fun hc => by rw [h] at hc; cases hc.2)]

/-! ## Claim C9 -/

/-- Written from the claim's words, for comparison with the code: a month
component "recognized as a calendar month value", i.e. parsing as a
number between 1 and 12. -/
def claimed_calendar_month (m : String) : Bool :=
  if py_isdigit m = true then
    decide (1 ≤ m.toList.foldl (fun acc c => acc * 10 + (c.toNat - 48)) 0)
    && decide (m.toList.foldl (fun acc c => acc * 10 + (c.toNat - 48)) 0 ≤ 12)
  else false

/-- An eligible activity used to show a mis-named shard still yields
items. -/
def c9_activity : TCXActivity :=
  ⟨some (.jint 1), some (.jbool true),
   some (.jstr "https://example.com/a/123.tcx" none), none⟩

/-- C9 counterexample: the shard path `2024/banana.json` has no
recognizable calendar month, yet `_resolve_year_month` accepts it (month
`"banana"`) and `collect_plan` scans the file and produces an item from
it — contradicting the claim that only files encoding a parseable
calendar year and month are scanned. -/
theorem c9_counterexample :
    resolve_year_month ["2024", "banana.json"] = some ("2024", "banana")
    ∧ claimed_calendar_month "banana" = false
    ∧ (collect_plan ⟨"out", fun _ => false⟩
        [⟨["2024", "banana.json"], .acts [c9_activity]⟩]).length = 1 := by
  refine ⟨by decide, by decide, by decide⟩

/-- C9 (amended): a shard file whose relative path `_resolve_year_month`
rejects is skipped with a warning and contributes no plan items, the scan
continuing with the remaining files; and the path is accepted exactly
when it has at least two components, its first component is all digits,
and the stem of its final component is non-empty — the month component is
not validated as a calendar month. -/
theorem c9_path_parse_gate :
    (∀ (cfg : CollectConfig) (f : ShardFile) (rest : List ShardFile) (seen : List String),
      resolve_year_month f.parts = none →
      collect_files cfg (f :: rest) seen =
        ⟨(collect_files cfg rest seen).items, (collect_files cfg rest seen).seen,
         (f.parts, "invalid_activity_file_path") :: (collect_files cfg rest seen).warnings⟩)
    ∧ (∀ parts : List String,
        (resolve_year_month parts).isSome = true ↔
          (2 ≤ parts.length ∧ py_isdigit (parts.headD "") = true
           ∧ path_stem (parts.getLastD "") ≠ "")) := by
  constructor
  · intro cfg f rest seen h
    rw [collect_files, h]
  · intro parts
    by_cases hlen : parts.length < 2
    · rw [resolve_year_month, if_pos hlen]
      constructor
      · intro hc; simp at hc
      · rintro ⟨h1, -, -⟩; omega
    · rw [resolve_year_month, if_neg hlen]
      by_cases hd : py_isdigit (parts.headD "") = true
      · by_cases hm : (path_stem (parts.getLastD "")).length = 0
        · rw [if_pos (Or.inr hm)]
          have hstem : path_stem (parts.getLastD "") = "" := by
            cases hval : path_stem (parts.getLastD "") with
            | mk data =>
              rw [hval] at hm
              cases data with
              | nil => rfl
              | cons c cs => simp [String.length] at hm
          constructor
          · intro hc; simp at hc
          · rintro ⟨-, -, h3⟩; exact absurd hstem h3
        · rw [if_neg (by
            rintro (hc | hc)
            · rw [hd] at hc; cases hc
            · exact hm hc)]
          have hne : path_stem (parts.getLastD "") ≠ "" := by
            intro hc
            rw [hc] at hm
            simp [String.length] at hm
          constructor
          · intro _; exact ⟨by omega, hd, hne⟩
          · intro _; rfl
      · rw [Bool.not_eq_true] at hd
        rw [if_pos (Or.inl hd)]
        constructor
        · intro hc; simp at hc
        · rintro ⟨-, h2, -⟩
          rw [hd] at h2; cases h2

/-! ## Claim C7 -/

theorem lookup_cons_self {β : Type} (a : String) (b : β) (l : List (String × β)) :
    ((a, b) :: l).lookup a = some b := by
  simp [List.lookup]

theorem lookup_cons_of_ne {β : Type} (a : String) (b : β) (l : List (String × β)) (k : String)
    (h : (k == a) = false) : ((a, b) :: l).lookup k = l.lookup k := by
  simp [List.lookup, h]

theorem lookup_isSome_cons {β : Type} (a : String) (b : β) (l : List (String × β)) (k : String)
    (h : (((a, b) :: l).lookup k).isSome = true) :
    k = a ∨ (l.lookup k).isSome = true := by
  by_cases hk : (k == a) = true
  · exact Or.inl (by simpa using hk)
  · rw [Bool.not_eq_true] at hk
    right
    rwa [lookup_cons_of_ne a b l k hk] at h

theorem lookup_isSome_append {α β : Type} [BEq α] (l₁ l₂ : List (α × β)) (k : α)
    (h : (((l₁ ++ l₂).lookup k).isSome = true)) :
    ((l₁.lookup k).isSome = true) ∨ ((l₂.lookup k).isSome = true) := by
  rw [lookup_append_or] at h
  cases h1 : l₁.lookup k with
  | some v => exact Or.inl (by simp [h1])
  | none => right; rwa [h1, Option.none_or] at h

theorem lookup_isSome_mem_keys {β : Type} (l : List (String × β)) (k : String)
    (h : (l.lookup k).isSome = true) : k ∈ l.map Prod.fst := by
  induction l with
  | nil => simp [List.lookup] at h
  | cons kv rest ih =>
    obtain ⟨a, b⟩ := kv
    by_cases hk : (k == a) = true
    · have : k = a := by simpa using hk
      simp [this]
    · rw [Bool.not_eq_true] at hk
      rw [lookup_cons_of_ne a b rest k hk] at h
      simp [ih h]

theorem token_head_keys (iso : ℚ → String) (t : TokenData) (k : String)
    (h : ((tokenDataHead iso t).lookup k).isSome = true) :
    k ∈ (["access_token", "token_type", "refresh_token", "expires_at", "scope"]
      : List String) := by
  have hmem := lookup_isSome_mem_keys _ _ h
  obtain ⟨atok, rt, ea, sc, tt, raw⟩ := t
  simp only [tokenDataHead, List.map_append, List.mem_append] at hmem
  rcases hmem with ((h1 | h2) | h3) | h4
  · simp at h1
    rcases h1 with rfl | rfl <;> simp
  · rcases rt with _ | v
    · simp at h2
    · by_cases htr : v.truthy = true
      · simp [htr] at h2
        subst h2
        simp
      · rw [Bool.not_eq_true] at htr
        simp [htr] at h2
  · rcases ea with _ | q
    · simp at h3
    · simp at h3
      subst h3
      simp
  · rcases sc with _ | l
    · simp at h4
    · by_cases hemp : l.isEmpty = true
      · simp [hemp] at h4
      · rw [Bool.not_eq_true] at hemp
        simp [hemp] at h4
        subst h4
        simp

theorem token_head_lookup_access (iso : ℚ → String) (t : TokenData) :
    (tokenDataHead iso t).lookup "access_token" = some t.access_token := by
  unfold tokenDataHead
  simp only [lookup_append_or]
  rw [lookup_cons_self]
  simp [Option.or]

theorem token_head_lookup_refresh_some (iso : ℚ → String) (t : TokenData) (v : TVal)
    (hrt : t.refresh_token = some v) (htr : v.truthy = true) :
    (tokenDataHead iso t).lookup "refresh_token" = some v := by
  unfold tokenDataHead
  rw [hrt]
  simp [htr, lookup_append_or, List.lookup, Option.or]

theorem token_head_lookup_refresh_none (iso : ℚ → String) (t : TokenData)
    (hrt : ∀ v, t.refresh_token = some v → v.truthy = false) :
    (tokenDataHead iso t).lookup "refresh_token" = none := by
  unfold tokenDataHead
  simp only [lookup_append_or]
  have hc1 : ([("access_token", t.access_token),
      ("token_type", t.token_type.getD .null)] : List (String × TVal)).lookup
        "refresh_token" = none := by
    simp [List.lookup]
  have hc2 : (match t.refresh_token with
      | some v => if v.truthy = true then [("refresh_token", v)] else []
      | none => ([] : List (String × TVal))).lookup "refresh_token" = none := by
    cases hr : t.refresh_token with
    | none => simp [List.lookup]
    | some v =>
      have := hrt v hr
      simp [this, List.lookup]
  have hc3 : (match t.expires_at with
      | some q => [("expires_at", TVal.tstr (iso q) (some q))]
      | none => ([] : List (String × TVal))).lookup "refresh_token" = none := by
    cases t.expires_at with
    | none => simp [List.lookup]
    | some q => simp [List.lookup]
  have hc4 : (match t.scope with
      | some l => if l.isEmpty = true then []
          else [("scope", TVal.tstr (String.intercalate " " l) none)]
      | none => ([] : List (String × TVal))).lookup "refresh_token" = none := by
    cases t.scope with
    | none => simp [List.lookup]
    | some l =>
      by_cases hemp : l.isEmpty = true
      · simp [hemp, List.lookup]
      · rw [Bool.not_eq_true] at hemp
        simp [hemp, List.lookup]
  rw [hc1, hc2, hc3, hc4]
  rfl

/-- C7: for every payload `from_dict` accepts, the saved document keeps
every key of the original payload; `access_token` and `refresh_token`
keep their exact values; and every key outside the internally-managed
five is round-tripped verbatim. -/
theorem c7_token_round_trip (iso : ℚ → String) (payload : List (String × TVal))
    (t : TokenData) (h : TokenData.from_dict payload = some t) :
    (∀ k : String, (payload.lookup k).isSome = true →
        ((t.as_serializable_dict iso).lookup k).isSome = true)
    ∧ (t.as_serializable_dict iso).lookup "access_token" = payload.lookup "access_token"
    ∧ (∀ v : TVal, payload.lookup "refresh_token" = some v →
        (t.as_serializable_dict iso).lookup "refresh_token" = some v)
    ∧ (∀ k : String,
        k ∉ (["access_token", "token_type", "refresh_token", "expires_at", "scope"]
          : List String) →
        (t.as_serializable_dict iso).lookup k = payload.lookup k) := by
  have hinv : t.raw = payload ∧ payload.lookup "access_token" = some t.access_token
      ∧ t.refresh_token = payload.lookup "refresh_token" := by
    unfold TokenData.from_dict at h
    cases hak : payload.lookup "access_token" with
    | none => rw [hak] at h; cases h
    | some a =>
      rw [hak] at h
      cases hex : parseExpiresField (payload.lookup "expires_at") with
      | none => rw [hex] at h; cases h
      | some e =>
        rw [hex] at h
        cases h
        exact ⟨rfl, rfl, rfl⟩
  obtain ⟨hraw, hak, hrt⟩ := hinv
  have hout : ∀ k : String, (t.as_serializable_dict iso).lookup k
      = ((tokenDataHead iso t).lookup k).or
          ((t.raw.filter
            (fun kv => ((tokenDataHead iso t).lookup kv.1).isNone)).lookup k) := by
    intro k
    unfold TokenData.as_serializable_dict
    exact lookup_append_or _ _ k
  have hfil : ∀ k : String,
      (t.raw.filter (fun kv => ((tokenDataHead iso t).lookup kv.1).isNone)).lookup k
        = if ((tokenDataHead iso t).lookup k).isNone = true
          then t.raw.lookup k else none :=
    fun k =>
      lookup_filter_keyfun (fun key => ((tokenDataHead iso t).lookup key).isNone) t.raw k
  refine ⟨?_, ?_, ?_, ?_⟩
  · intro k hk
    rw [hout k, hfil k]
    cases hd : (tokenDataHead iso t).lookup k with
    | some v => simp [Option.or]
    | none => simp [Option.or, hraw, hk]
  · rw [hout _, hfil _, token_head_lookup_access iso t]
    simp [Option.or, hak]
  · intro v hv
    have hrv : t.refresh_token = some v := by rw [hrt, hv]
    by_cases htr : v.truthy = true
    · rw [hout _, hfil _, token_head_lookup_refresh_some iso t v hrv htr]
      simp [Option.or]
    · rw [Bool.not_eq_true] at htr
      have hnone := token_head_lookup_refresh_none iso t (fun w hw => by
        rw [hrv] at hw
        cases hw
        exact htr)
      rw [hout _, hfil _, hnone]
      simp [Option.or, hraw, hv]
  · intro k hk
    have hdnone : (tokenDataHead iso t).lookup k = none := by
      cases hd : (tokenDataHead iso t).lookup k with
      | none => rfl
      | some v => exact absurd (token_head_keys iso t k (by simp [hd])) hk
    rw [hout _, hfil _, hdnone]
    simp [Option.or, hraw]

/-- A token file with an unknown extra field, for the C7 witness. -/
def c7_payload : List (String × TVal) :=
  [("access_token", .tstr "tok" none), ("refresh_token", .tstr "ref" none),
   ("note", .tnum 7)]

/-- The token `from_dict` builds from `c7_payload`. -/
def c7_token : TokenData :=
  ⟨.tstr "tok" none, some (.tstr "ref" none), none, none, none, c7_payload⟩

/-- C7 witness: the unknown field `note` and the `refresh_token` value
survive the round trip on a concrete payload. -/
theorem c7_witness :
    ((c7_token.as_serializable_dict (fun _ => "")).lookup "note" = some (.tnum 7))
    ∧ ((c7_token.as_serializable_dict (fun _ => "")).lookup "refresh_token"
        = some (.tstr "ref" none)) := by
  have h := c7_token_round_trip (fun _ => "") c7_payload c7_token (by rfl)
  refine ⟨?_, h.2.2.1 _ (by rfl)⟩
  have h4 := h.2.2.2 "note" (by simp)
  rw [h4]
  rfl
